import Mathlib

/-
Verification development for the cs2-prices-tracker repository.

The embedding covers the two source files:
  src/utils/apiUtils.ts      (fetchWithRetry, getAllItemNames, fetchPrice)
  src/SteamMarketFetcher.ts  (processMarketData, processBatch, processItems)

Modelling conventions:
  - An asynchronous operation that can resolve or reject is a value of
    Except e a; the attempt number indexes the operation so that distinct
    attempts may fail with distinct errors.
  - A JavaScript object used as a string-keyed map is modelled by its lookup
    function String -> Option v; object spread puts the later object first.
  - Date.parse and parseInt are external JavaScript builtins; they are
    parameters of type String -> Option Int, where none models NaN.
  - The wall-clock budget check (Date.now() - startTime >= maxDuration) is
    modelled by a function budget : Nat -> Bool indexed by the iteration
    count of the batch loop.
  - Every call site of processItems uses the default batchSize = 1, so the
    loop is embedded at batchSize = 1.
-/

set_option autoImplicit false

namespace CS2

/-- One parsed row of the price history body. The source builds
\x7b time: Date.parse(t), value, volume: parseInt(v) \x7d; time and volume are
Option Int with none standing for NaN (a failed parse). -/
structure PricePoint where
  time : Option Int
  value : Rat
  volume : Option Int
deriving DecidableEq, Repr

/-- The persisted per-item summary \x7b steam: number \x7d. -/
structure PriceSummary where
  steam : Rat
deriving DecidableEq, Repr

/-- Observable outcome of fetchWithRetry: how many times the operation ran,
the backoff waits performed between attempts, and the final result
(the resolved value, or the error of the last attempt). -/
structure RetryOutcome (e a : Type) where
  attempts : Nat
  waits : List Nat
  result : Except e a
deriving Repr

/-- Loop body of fetchWithRetry (apiUtils.ts lines 14-37). The first Nat is
the current attempt number, the second is the number of retries still
allowed after it (retries - attempt). On failure with retries left, a wait
of delay * 2 ^ attempt is recorded and the next attempt runs; on failure of
the last attempt the error is propagated. -/
def retryGo {e a : Type} (op : Nat → Except e a) (delay : Nat) :
    Nat → Nat → RetryOutcome e a
  | attempt, 0 =>
    match op attempt with
    | Except.ok v => ⟨1, [], Except.ok v⟩
    | Except.error err => ⟨1, [], Except.error err⟩
  | attempt, left + 1 =>
    match op attempt with
    | Except.ok v => ⟨1, [], Except.ok v⟩
    | Except.error _ =>
      let rest := retryGo op delay (attempt + 1) left
      ⟨rest.attempts + 1, delay * 2 ^ attempt :: rest.waits, rest.result⟩

/-- fetchWithRetry (apiUtils.ts lines 14-37): run the operation at attempts
0, 1, ..., retries with exponential backoff between consecutive attempts. -/
def fetchWithRetry {e a : Type} (op : Nat → Except e a) (retries delay : Nat) :
    RetryOutcome e a :=
  retryGo op delay 0 retries

/-- fetchPrice (apiUtils.ts lines 85-131): fetchWithRetry around the price
request, followed by .catch(error => \x7b ...; return [] \x7d). The catch handler
resolves, so fetchPrice always resolves; after retry exhaustion it resolves
with the empty list. -/
def fetchPrice {e : Type} (op : Nat → Except e (List PricePoint))
    (retries delay : Nat) : Except e (List PricePoint) :=
  match (fetchWithRetry op retries delay).result with
  | Except.ok prices => Except.ok prices
  | Except.error _ => Except.ok []

/-- One element of the JSON array returned by a catalog listing endpoint:
either a falsy element (null) or an object whose market_hash_name field is
present (some name) or absent (none, which the map step turns into
undefined). -/
inductive CatalogEntry where
  | nullish
  | obj (name : Option String)
deriving DecidableEq, Repr

/-- JavaScript truthiness of a catalog entry, as used by .filter(Boolean). -/
def entryTruthy : CatalogEntry → Bool
  | CatalogEntry.nullish => false
  | CatalogEntry.obj _ => true

/-- Field access item.market_hash_name: none models undefined. -/
def entryName : CatalogEntry → Option String
  | CatalogEntry.nullish => none
  | CatalogEntry.obj n => n

/-- Per-endpoint extraction (apiUtils.ts lines 71-75):
items.filter(Boolean).map(item => item.market_hash_name). The result list
may contain none entries (undefined) for truthy objects without the field. -/
def listingNames (items : List CatalogEntry) : List (Option String) :=
  (items.filter entryTruthy).map entryName

/-- Turn an Except into an Option, forgetting the error. -/
def exceptValue {e a : Type} : Except e a → Option a
  | Except.ok v => some v
  | Except.error _ => none

/-- The for-loop of getAllItemNames (apiUtils.ts lines 56-80) with its
accumulator allItems: each endpoint is fetched through fetchWithRetry; on
success its names are appended, on exhausted retries the endpoint is
skipped and the loop continues. -/
def collectListings (retries delay : Nat) :
    List (Nat → Except Unit (List CatalogEntry)) → List (Option String) →
    List (Option String)
  | [], acc => acc
  | op :: ops, acc =>
    match (fetchWithRetry op retries delay).result with
    | Except.ok items => collectListings retries delay ops (acc ++ listingNames items)
    | Except.error _ => collectListings retries delay ops acc

/-- getAllItemNames (apiUtils.ts lines 39-83), parameterised by the
per-endpoint fetch operations. -/
def getAllItemNames (endpointOps : List (Nat → Except Unit (List CatalogEntry)))
    (retries delay : Nat) : List (Option String) :=
  collectListings retries delay endpointOps []

/-- One row [timestampString, value, volumeString] mapped to a PricePoint
(apiUtils.ts lines 111-115), with dateParse modelling Date.parse and
intParse modelling parseInt (none models NaN). -/
def parseRow (dateParse intParse : String → Option Int) :
    String × Rat × String → PricePoint
  | (t, v, vol) => { time := dateParse t, value := v, volume := intParse vol }

/-- The row mapping of fetchPrice (apiUtils.ts lines 110-116):
(JSON.parse(body).prices || []).map(...). Every row of the prices array is
mapped; none are dropped. -/
def parsePrices (dateParse intParse : String → Option Int)
    (rows : List (String × Rat × String)) : List PricePoint :=
  rows.map (parseRow dateParse intParse)

/-- The merge of the existing persisted store with the new in-memory
results (SteamMarketFetcher.ts lines 95-98): the object spread
\x7b ...prices, ...this.priceDataByItemHashName \x7d, modelled by its lookup
function (the later spread wins). The subsequent
Object.keys().sort().reduce() step (lines 99-104) only reorders keys and
preserves this mapping. -/
def mergeStores (existing newResults : String → Option PriceSummary) :
    String → Option PriceSummary :=
  fun k =>
    match newResults k with
    | some v => some v
    | none => existing k

/-- The mutable per-run state of the fetcher instance:
priceDataByItemHashName (as a lookup function) and failedItems. -/
structure BatchState where
  results : String → Option PriceSummary
  failed : List String

/-- The de-duplicated push into failedItems
(SteamMarketFetcher.ts lines 136-138 and 144-146). -/
def recordFailure (st : BatchState) (name : String) : BatchState :=
  if name ∈ st.failed then st else { st with failed := st.failed ++ [name] }

/-- The settlement of one item of a batch (SteamMarketFetcher.ts lines
127-147): a resolved non-empty price list stores the aggregated summary
under the item key; a resolved empty list or a rejection records the item
in failedItems. agg models getWeightedAveragePrice. -/
def processOne {e : Type} (agg : List PricePoint → Rat) (st : BatchState)
    (name : String) (outcome : Except e (List PricePoint)) : BatchState :=
  match outcome with
  | Except.ok prices =>
    if 0 < prices.length then
      { st with results := fun k => if k = name then some { steam := agg prices } else st.results k }
    else recordFailure st name
  | Except.error _ => recordFailure st name

/-- processBatch (SteamMarketFetcher.ts lines 126-150): all items of the
batch settle before it returns; the handlers run one at a time on the
JavaScript event loop, here folded in batch order. -/
def processBatch {e : Type} (agg : List PricePoint → Rat)
    (outcome : String → Except e (List PricePoint))
    (st : BatchState) (batch : List String) : BatchState :=
  batch.foldl (fun s n => processOne agg s n (outcome n)) st

/-- One observable step of the batch loop: either the early wall-clock stop
with the cursor it persists, or a completed batch with the cursor persisted
after it. -/
inductive Step where
  | stopped (saved : Nat)
  | ranBatch (batch : List String) (saved : Nat)
deriving DecidableEq, Repr

/-- The loop of processItems (SteamMarketFetcher.ts lines 156-175) at
batchSize = 1 (the only batch size the program uses). remaining is
items.slice(i); i is the loop offset; k counts iterations and indexes the
wall-clock budget check. Each iteration first checks the budget (persisting
startIndex + i and stopping early when exceeded), then processes the batch
and persists startIndex + i + 1. -/
def processItemsGo {e : Type} (agg : List PricePoint → Rat)
    (outcome : String → Except e (List PricePoint)) (budget : Nat → Bool)
    (startIndex : Nat) :
    List String → Nat → Nat → BatchState → List Step × BatchState × Bool
  | [], _, _, st => ([], st, false)
  | item :: rest, i, k, st =>
    if budget k then
      ([Step.stopped (startIndex + i)], st, true)
    else
      let st1 := processBatch agg outcome st [item]
      let r := processItemsGo agg outcome budget startIndex rest (i + 1) (k + 1) st1
      (Step.ranBatch [item] (startIndex + i + 1) :: r.1, r.2)

/-- processItems (SteamMarketFetcher.ts lines 152-176) as called on line 81:
default batchSize 1, starting from the freshly constructed empty state.
Returns the step trace, the final state and whether the run stopped early. -/
def processItems {e : Type} (agg : List PricePoint → Rat)
    (outcome : String → Except e (List PricePoint)) (budget : Nat → Bool)
    (items : List String) (startIndex : Nat) :
    List Step × BatchState × Bool :=
  processItemsGo agg outcome budget startIndex items 0 0
    { results := fun _ => none, failed := [] }

/-- Observable outcome of one processMarketData run. -/
structure RunOutcome where
  start : Nat
  steps : List Step
  stoppedEarly : Bool
  secondPassRan : Bool
  retried : List String
  finalState : BatchState

/-- processMarketData (SteamMarketFetcher.ts lines 68-124): abort on an
empty catalog; otherwise compute start = (state.lastIndex || 0) % length,
run the batch loop on catalog.slice(start), and, whenever failedItems is
non-empty afterwards (regardless of an early stop), clear it and re-run
processBatch with batch size 1 for each previously failed item. -/
def processMarketData {e : Type} (agg : List PricePoint → Rat)
    (outcome : String → Except e (List PricePoint)) (budget : Nat → Bool)
    (catalog : List String) (persisted : Option Nat) : Option RunOutcome :=
  if catalog.length = 0 then none
  else
    let start := persisted.getD 0 % catalog.length
    let r := processItems agg outcome budget (catalog.drop start) start
    let itemsToRetry := r.2.1.failed
    let st1 : BatchState := { results := r.2.1.results, failed := [] }
    let finalSt := itemsToRetry.foldl (fun s item => processBatch agg outcome s [item]) st1
    some { start := start
           steps := r.1
           stoppedEarly := r.2.2
           secondPassRan := decide (0 < itemsToRetry.length)
           retried := itemsToRetry
           finalState := finalSt }

/-- The items fetched by the batch loop, in order: the concatenation of the
batches of a step trace. -/
def joinBatches : List Step → List String
  | [] => []
  | Step.ranBatch b _ :: rest => b ++ joinBatches rest
  | Step.stopped _ :: rest => joinBatches rest

/-- A price-fetch operation that rejects at every attempt. -/
def alwaysFailPrices : Nat → Except Unit (List PricePoint) :=
  fun _ => Except.error ()

/-- A fallible operation over Nat that fails with error 7 at every attempt. -/
def failNat : Nat → Except Nat Nat :=
  fun _ => Except.error 7

/-- A trivial aggregator standing in for getWeightedAveragePrice where the
aggregated value is irrelevant. -/
def aggZero : List PricePoint → Rat :=
  fun _ => 0

/-- The freshly constructed fetcher state: empty results, no failures. -/
def emptyState : BatchState :=
  { results := fun _ => none, failed := [] }

/-- A fetch whose promise resolves with an empty price list for every item. -/
def okEmptyOutcome : String → Except Unit (List PricePoint) :=
  fun _ => Except.ok []

/-- A wall-clock budget that is never exceeded. -/
def neverStop : Nat → Bool :=
  fun _ => false

/-- A wall-clock budget exceeded from the second loop iteration on. -/
def stopAtOne : Nat → Bool :=
  fun k => decide (1 ≤ k)

/-- A concrete existing store holding one key. -/
def E0 : String → Option PriceSummary :=
  fun k => if k = ("keep") then some { steam := 1 } else none

/-- A concrete new-results map holding one other key. -/
def N0 : String → Option PriceSummary :=
  fun k => if k = ("new") then some { steam := 2 } else none

/-- Two listing endpoints that both succeed and both return the same item. -/
def dupOps : List (Nat → Except Unit (List CatalogEntry)) :=
  [fun _ => Except.ok [CatalogEntry.obj (some ("A"))],
   fun _ => Except.ok [CatalogEntry.obj (some ("A"))]]

/-- One listing endpoint returning a null element, a truthy object without
the market_hash_name field, and a well-formed object. -/
def fieldlessOps : List (Nat → Except Unit (List CatalogEntry)) :=
  [fun _ => Except.ok
    [CatalogEntry.nullish, CatalogEntry.obj none, CatalogEntry.obj (some ("B"))]]

/-- A Date.parse that fails (NaN) on every input. -/
def noDate : String → Option Int :=
  fun _ => none

/-- A parseInt that yields 2 on every input. -/
def intTwo : String → Option Int :=
  fun _ => some 2

/-- Characterisation of the retry loop on an always-failing operation:
starting at attempt a with left retries remaining, it runs left + 1
attempts, waits delay * 2 ^ (a + j) before retry j, and propagates the
error of the last attempt. -/
theorem retryGo_allFail {e a : Type} (op : Nat → Except e a) (err : Nat → e)
    (delay : Nat) (hop : ∀ n, op n = Except.error (err n)) :
    ∀ (left attempt : Nat),
      retryGo op delay attempt left =
        ⟨left + 1, (List.range left).map (fun j => delay * 2 ^ (attempt + j)),
          Except.error (err (attempt + left))⟩ := by
  intro left
  induction left with
  | zero =>
    intro attempt
    simp [retryGo, hop attempt]
  | succ n ih =>
    intro attempt
    simp only [retryGo, hop attempt, ih (attempt + 1)]
    refine congrArg₂ (RetryOutcome.mk (n + 1 + 1)) ?_ (by rw [Nat.add_assoc, Nat.add_comm 1 n])
    rw [List.range_succ_eq_map, List.map_cons, List.map_map]
    refine congrArg₂ List.cons (by rw [Nat.add_zero]) ?_
    refine List.map_congr_left ?_
    intro j _
    simp only [Function.comp]
    rw [Nat.add_assoc, Nat.add_comm 1 j]

/-- Claim C5: for an operation failing on every attempt, fetchWithRetry
with maximum retry count R performs exactly R + 1 attempts, propagates the
failure of the last attempt, and between consecutive attempts waits
delay * 2 ^ attempt milliseconds (attempt zero-indexed). -/
theorem C5_backoff_thm {e a : Type} (op : Nat → Except e a) (err : Nat → e)
    (R D : Nat) (hop : ∀ n, op n = Except.error (err n)) :
    (fetchWithRetry op R D).attempts = R + 1 ∧
    (fetchWithRetry op R D).result = Except.error (err R) ∧
    (fetchWithRetry op R D).waits = (List.range R).map (fun j => D * 2 ^ j) := by
  have h := retryGo_allFail op err D hop R 0
  rw [fetchWithRetry, h]
  refine ⟨rfl, by rw [Nat.zero_add], ?_⟩
  refine List.map_congr_left ?_
  intro j _
  rw [Nat.zero_add]

/-- Witness for claim C5 at the concrete always-failing operation failNat
with the default configuration R = 3, D = 5000. -/
theorem C5_witness :
    (fetchWithRetry failNat 3 5000).attempts = 4 ∧
    (fetchWithRetry failNat 3 5000).result = Except.error 7 ∧
    (fetchWithRetry failNat 3 5000).waits = [5000, 10000, 20000] := by
  obtain ⟨h1, h2, h3⟩ := C5_backoff_thm failNat (fun _ => 7) 3 5000 (fun _ => rfl)
  refine ⟨h1, h2, ?_⟩
  rw [h3]
  decide

/-- Counterexample to claim C1: with an operation that rejects at every
attempt, fetchWithRetry does exhaust all retries with the failure, but
fetchPrice converts that exhaustion into a resolved empty list instead of
propagating the failure. -/
theorem C1_counterexample :
    (fetchWithRetry alwaysFailPrices 3 5000).result = Except.error () ∧
    fetchPrice alwaysFailPrices 3 5000 = Except.ok [] := by
  exact ⟨rfl, rfl⟩

/-- Claim C1 as amended: when every attempt fails, fetchPrice resolves with
the empty list (the catch handler swallows the exhausted failure), and the
batch runner then records the item in the FailureSet through the
empty-result branch of processBatch, not through a propagated failure. -/
theorem C1_amended_thm {e : Type} (op : Nat → Except e (List PricePoint))
    (err : Nat → e) (R D : Nat) (hop : ∀ n, op n = Except.error (err n)) :
    fetchPrice op R D = Except.ok [] ∧
    ∀ (agg : List PricePoint → Rat) (st : BatchState) (name : String),
      name ∈ (processOne agg st name (fetchPrice op R D)).failed := by
  have h := retryGo_allFail op err D hop R 0
  have hres : fetchPrice op R D = Except.ok [] := by
    rw [fetchPrice, fetchWithRetry, h]
  refine ⟨hres, ?_⟩
  intro agg st name
  rw [hres]
  simp only [processOne, List.length_nil, Nat.lt_irrefl, if_false, recordFailure]
  by_cases hmem : name ∈ st.failed
  · rw [if_pos hmem]
    exact hmem
  · rw [if_neg hmem]
    simp

/-- Witness for the amended claim C1: the always-failing operation yields a
resolved empty list and the item lands in failedItems. -/
theorem C1_witness :
    fetchPrice alwaysFailPrices 3 5000 = Except.ok [] ∧
    ("AK") ∈ (processOne aggZero emptyState ("AK")
      (fetchPrice alwaysFailPrices 3 5000)).failed := by
  have h := C1_amended_thm alwaysFailPrices (fun _ => ()) 3 5000 (fun _ => rfl)
  exact ⟨h.1, h.2 aggZero emptyState ("AK")⟩

/-- Claim C2: the merged store keeps every key of the existing store --- a
key absent from the new results keeps its existing value, keys of the new
results overwrite, and a key can only be absent from the merge when it was
absent from the existing store. -/
theorem C2_merge_thm (E N : String → Option PriceSummary) (k : String) :
    (∀ v, E k = some v → N k = none → mergeStores E N k = some v) ∧
    (∀ w, N k = some w → mergeStores E N k = some w) ∧
    (mergeStores E N k = none → E k = none) := by
  refine ⟨?_, ?_, ?_⟩
  · intro v hE hN
    simp [mergeStores, hN, hE]
  · intro w hN
    simp [mergeStores, hN]
  · intro hm
    cases hN : N k with
    | none => simpa [mergeStores, hN] using hm
    | some w => simp [mergeStores, hN] at hm

/-- Witness for claim C2 at a concrete store pair: the key only in the
existing store survives with its value, the key of the new results is
written. -/
theorem C2_witness :
    mergeStores E0 N0 ("keep") = some { steam := 1 } ∧
    mergeStores E0 N0 ("new") = some { steam := 2 } := by
  refine ⟨(C2_merge_thm E0 N0 ("keep")).1 { steam := 1 } ?_ ?_,
    (C2_merge_thm E0 N0 ("new")).2.1 { steam := 2 } ?_⟩ <;> decide

/-- Specification of the getAllItemNames accumulator loop: the final list
is the accumulator followed by the concatenation, in endpoint order, of the
name lists of the endpoints whose fetch succeeded. -/
theorem collectListings_spec (R D : Nat) :
    ∀ (ops : List (Nat → Except Unit (List CatalogEntry)))
      (acc : List (Option String)),
      collectListings R D ops acc =
        acc ++ ((ops.filterMap fun op =>
          exceptValue (fetchWithRetry op R D).result).map listingNames).flatten := by
  intro ops
  induction ops with
  | nil =>
    intro acc
    simp [collectListings]
  | cons op rest ih =>
    intro acc
    cases h : (fetchWithRetry op R D).result with
    | ok items =>
      simp [collectListings, h, exceptValue, ih, List.append_assoc]
    | error err =>
      simp [collectListings, h, exceptValue, ih]

/-- Counterexample to claim C6: two endpoints both listing item A make
getAllItemNames return A twice --- no de-duplication is performed. -/
theorem C6_counterexample :
    getAllItemNames dupOps 3 5000 = [some ("A"), some ("A")] ∧
    ¬ (getAllItemNames dupOps 3 5000).Nodup := by
  refine ⟨by decide, by decide⟩

/-- Claim C6 as amended: getAllItemNames returns the plain concatenation,
in endpoint order, of the per-listing identifier lists of the endpoints
whose fetch succeeded; duplicates within or across listings are retained. -/
theorem C6_amended_thm (ops : List (Nat → Except Unit (List CatalogEntry)))
    (R D : Nat) :
    getAllItemNames ops R D =
      ((ops.filterMap fun op =>
        exceptValue (fetchWithRetry op R D).result).map listingNames).flatten := by
  have h := collectListings_spec R D ops []
  rw [getAllItemNames, h, List.nil_append]

/-- Claim C7: evaluation at the failing input. A listing containing a null
element, a truthy object without the market_hash_name field, and a
well-formed object named B yields [undefined, B]: the null element is
filtered by .filter(Boolean), but the field-less object contributes an
undefined entry to the returned list instead of being filtered out, because
the filter runs before the .map that reads the field. -/
theorem C7_code_bug_eval :
    getAllItemNames fieldlessOps 3 5000 = [none, some ("B")] := by
  decide

/-- Counterexample to claim C8: a row whose timestamp does not parse is not
dropped --- the returned list still has one point per row, and that point
carries NaN (modelled none) as its time, not a well-defined integer. -/
theorem C8_counterexample :
    parsePrices noDate intTwo [(("garbage"), (1 : Rat), ("2"))] =
      [{ time := none, value := 1, volume := some 2 }] ∧
    (parsePrices noDate intTwo [(("garbage"), (1 : Rat), ("2"))]).length = 1 := by
  exact ⟨rfl, rfl⟩

/-- Claim C8 as amended: the row mapping of fetchPrice keeps every row of
the prices array, in order --- the output has exactly one point per row,
whose time is Date.parse of the timestamp string and whose volume is
parseInt of the volume string, with NaN (none) kept in place when a parse
fails; no row is dropped. -/
theorem C8_amended_thm (dp ip : String → Option Int)
    (rows : List (String × Rat × String)) :
    (parsePrices dp ip rows).length = rows.length ∧
    (parsePrices dp ip rows).map PricePoint.time = rows.map (fun r => dp r.1) ∧
    (parsePrices dp ip rows).map PricePoint.volume =
      rows.map (fun r => ip r.2.2) := by
  refine ⟨by simp [parsePrices], ?_, ?_⟩
  · rw [parsePrices, List.map_map]
    refine List.map_congr_left ?_
    rintro ⟨t, v, vol⟩ _
    rfl
  · rw [parsePrices, List.map_map]
    refine List.map_congr_left ?_
    rintro ⟨t, v, vol⟩ _
    rfl

/-- recordFailure never touches the result map. -/
theorem recordFailure_results (st : BatchState) (n : String) :
    (recordFailure st n).results = st.results := by
  rw [recordFailure]
  split <;> rfl

/-- recordFailure puts its item into failedItems. -/
theorem recordFailure_mem_self (st : BatchState) (n : String) :
    n ∈ (recordFailure st n).failed := by
  rw [recordFailure]
  split
  · assumption
  · simp

/-- recordFailure keeps every item already in failedItems. -/
theorem recordFailure_mem_mono (st : BatchState) (n m : String)
    (h : m ∈ st.failed) : m ∈ (recordFailure st n).failed := by
  rw [recordFailure]
  split
  · exact h
  · simp [h]

/-- Settling one item never erases a previously stored result key. -/
theorem processOne_results_mono {e : Type} (agg : List PricePoint → Rat)
    (st : BatchState) (n name : String) (outcome : Except e (List PricePoint))
    (h : (st.results name).isSome = true) :
    ((processOne agg st n outcome).results name).isSome = true := by
  cases outcome with
  | ok prices =>
    by_cases hp : 0 < prices.length
    · have heq : processOne (e := e) agg st n (Except.ok prices) =
          { st with results := fun k =>
              if k = n then some { steam := agg prices } else st.results k } := by
        simp [processOne, hp]
      rw [heq]
      by_cases hk : name = n <;> simp [hk, h]
    · have heq : processOne (e := e) agg st n (Except.ok prices)
          = recordFailure st n := by
        simp [processOne, hp]
      rw [heq, recordFailure_results]
      exact h
  | error err =>
    have heq : processOne agg st n (Except.error err) = recordFailure st n := rfl
    rw [heq, recordFailure_results]
    exact h

/-- Settling one item never removes an item from failedItems. -/
theorem processOne_failed_mono {e : Type} (agg : List PricePoint → Rat)
    (st : BatchState) (n name : String) (outcome : Except e (List PricePoint))
    (h : name ∈ st.failed) :
    name ∈ (processOne agg st n outcome).failed := by
  cases outcome with
  | ok prices =>
    by_cases hp : 0 < prices.length
    · simp [processOne, hp, h]
    · have heq : processOne (e := e) agg st n (Except.ok prices)
          = recordFailure st n := by
        simp [processOne, hp]
      rw [heq]
      exact recordFailure_mem_mono st n name h
  | error err =>
    exact recordFailure_mem_mono st n name h

/-- A resolved non-empty list stores a result under the item key. -/
theorem processOne_ok_nonempty {e : Type} (agg : List PricePoint → Rat)
    (st : BatchState) (name : String) (prices : List PricePoint)
    (hp : prices ≠ []) :
    ((processOne (e := e) agg st name (Except.ok prices)).results name).isSome
      = true := by
  have hl : 0 < prices.length := List.length_pos.mpr hp
  simp [processOne, hl]

/-- A resolved empty list records the item in failedItems. -/
theorem processOne_ok_empty {e : Type} (agg : List PricePoint → Rat)
    (st : BatchState) (name : String) :
    name ∈ (processOne (e := e) agg st name (Except.ok [])).failed := by
  have heq : processOne (e := e) agg st name (Except.ok []) =
      recordFailure st name := by
    simp [processOne]
  rw [heq]
  exact recordFailure_mem_self st name

/-- A rejection records the item in failedItems. -/
theorem processOne_error_self {e : Type} (agg : List PricePoint → Rat)
    (st : BatchState) (name : String) (err : e) :
    name ∈ (processOne agg st name (Except.error err)).failed :=
  recordFailure_mem_self st name

/-- processBatch never erases a previously stored result key. -/
theorem processBatch_results_mono {e : Type} (agg : List PricePoint → Rat)
    (outcome : String → Except e (List PricePoint)) :
    ∀ (batch : List String) (st : BatchState) (name : String),
      (st.results name).isSome = true →
      ((processBatch agg outcome st batch).results name).isSome = true := by
  intro batch
  induction batch with
  | nil =>
    intro st name h
    exact h
  | cons b bs ih =>
    intro st name h
    exact ih (processOne agg st b (outcome b)) name
      (processOne_results_mono agg st b name (outcome b) h)

/-- processBatch never removes an item from failedItems. -/
theorem processBatch_failed_mono {e : Type} (agg : List PricePoint → Rat)
    (outcome : String → Except e (List PricePoint)) :
    ∀ (batch : List String) (st : BatchState) (name : String),
      name ∈ st.failed →
      name ∈ (processBatch agg outcome st batch).failed := by
  intro batch
  induction batch with
  | nil =>
    intro st name h
    exact h
  | cons b bs ih =>
    intro st name h
    exact ih (processOne agg st b (outcome b)) name
      (processOne_failed_mono agg st b name (outcome b) h)

/-- Bookkeeping of a settled batch, in accumulator-general form: every item
of the batch is recorded according to its fetch outcome. -/
theorem processBatch_records {e : Type} (agg : List PricePoint → Rat)
    (outcome : String → Except e (List PricePoint)) (name : String) :
    ∀ (batch : List String) (st : BatchState), name ∈ batch →
      (∀ l, outcome name = Except.ok l → l ≠ [] →
        ((processBatch agg outcome st batch).results name).isSome = true) ∧
      (outcome name = Except.ok [] →
        name ∈ (processBatch agg outcome st batch).failed) ∧
      (∀ err, outcome name = Except.error err →
        name ∈ (processBatch agg outcome st batch).failed) := by
  intro batch
  induction batch with
  | nil =>
    intro st h
    exact absurd h (List.not_mem_nil name)
  | cons b bs ih =>
    intro st h
    by_cases hb : name = b
    · subst hb
      refine ⟨?_, ?_, ?_⟩
      · intro l hl hne
        refine processBatch_results_mono agg outcome bs _ name ?_
        show ((processOne agg st name (outcome name)).results name).isSome = true
        rw [hl]
        exact processOne_ok_nonempty agg st name l hne
      · intro hl
        refine processBatch_failed_mono agg outcome bs _ name ?_
        show name ∈ (processOne agg st name (outcome name)).failed
        rw [hl]
        exact processOne_ok_empty agg st name
      · intro err hl
        refine processBatch_failed_mono agg outcome bs _ name ?_
        show name ∈ (processOne agg st name (outcome name)).failed
        rw [hl]
        exact processOne_error_self agg st name err
    · have hmem : name ∈ bs := by
        cases List.mem_cons.mp h with
        | inl heq => exact absurd heq hb
        | inr hm => exact hm
      exact ih (processOne agg st b (outcome b)) hmem

/-- Claim C10: after a batch settles, every item name of the batch is
recorded --- as a key of the in-memory result map when its fetch resolved
with a non-empty price list, or as an element of failedItems when the fetch
resolved empty or rejected; no item of a batch is left unrecorded. -/
theorem C10_batch_thm {e : Type} (agg : List PricePoint → Rat)
    (outcome : String → Except e (List PricePoint)) (st : BatchState)
    (batch : List String) (name : String) (h : name ∈ batch) :
    (∀ l, outcome name = Except.ok l → l ≠ [] →
      ((processBatch agg outcome st batch).results name).isSome = true) ∧
    (outcome name = Except.ok [] →
      name ∈ (processBatch agg outcome st batch).failed) ∧
    (∀ err, outcome name = Except.error err →
      name ∈ (processBatch agg outcome st batch).failed) :=
  processBatch_records agg outcome name batch st h

/-- Witness for claim C10: an item whose fetch resolves empty lands in
failedItems of the settled batch. -/
theorem C10_witness :
    ("a") ∈ (processBatch aggZero okEmptyOutcome emptyState [("a")]).failed := by
  have h : ("a") ∈ ([("a")] : List String) := by decide
  exact (C10_batch_thm aggZero okEmptyOutcome emptyState [("a")] ("a") h).2.1 rfl

/-- Every completed-batch step of the batch loop carries the batch at the
next offset of the remaining slice and persists the cursor
startIndex + offset + 1. -/
theorem processItemsGo_step {e : Type} (agg : List PricePoint → Rat)
    (outcome : String → Except e (List PricePoint)) (budget : Nat → Bool)
    (startIndex : Nat) :
    ∀ (remaining : List String) (i k : Nat) (st : BatchState) (j : Nat)
      (b : List String) (s : Nat),
      (processItemsGo agg outcome budget startIndex remaining i k st).1.get? j
        = some (Step.ranBatch b s) →
      ∃ hj : j < remaining.length,
        b = [remaining.get ⟨j, hj⟩] ∧ s = startIndex + i + j + 1 := by
  intro remaining
  induction remaining with
  | nil =>
    intro i k st j b s h
    simp [processItemsGo] at h
  | cons item rest ih =>
    intro i k st j b s h
    by_cases hb : budget k = true
    · simp only [processItemsGo, hb, if_true] at h
      cases j with
      | zero => simp at h
      | succ n => simp at h
    · rw [Bool.not_eq_true] at hb
      simp only [processItemsGo, hb, Bool.false_eq_true, if_false] at h
      cases j with
      | zero =>
        simp only [List.get?] at h
        obtain ⟨hb1, hs1⟩ := Step.ranBatch.inj (Option.some.inj h)
        refine ⟨Nat.succ_pos rest.length, hb1.symm, ?_⟩
        omega
      | succ n =>
        simp only [List.get?] at h
        obtain ⟨hj, hb1, hs1⟩ :=
          ih (i + 1) (k + 1) (processBatch agg outcome st [item]) n b s h
        refine ⟨Nat.succ_lt_succ hj, ?_, by omega⟩
        rw [hb1]
        rfl

/-- Claim C4: after every batch that completes normally (not the early
wall-clock stop), the persisted cursor equals the catalog index immediately
following the last (and, at batch size 1, only) item of that batch --- and
hence also equals it modulo the catalog length startIndex + items.length;
the cursor is recorded on every completed-batch step of the trace, not only
at run end. -/
theorem C4_checkpoint_thm {e : Type} (agg : List PricePoint → Rat)
    (outcome : String → Except e (List PricePoint)) (budget : Nat → Bool)
    (items : List String) (startIndex j : Nat) (b : List String) (s : Nat)
    (h : (processItems agg outcome budget items startIndex).1.get? j
      = some (Step.ranBatch b s)) :
    ∃ hj : j < items.length,
      b = [items.get ⟨j, hj⟩] ∧ s = startIndex + j + 1 ∧
      s % (startIndex + items.length)
        = (startIndex + j + 1) % (startIndex + items.length) := by
  obtain ⟨hj, hb, hs⟩ :=
    processItemsGo_step agg outcome budget startIndex items 0 0
      { results := fun _ => none, failed := [] } j b s h
  have hs1 : s = startIndex + j + 1 := by omega
  exact ⟨hj, hb, hs1, by rw [hs1]⟩

/-- Witness for claim C4: in a concrete run with two items resumed at
offset 5, the first completed batch persists cursor 6 = 5 + 0 + 1. -/
theorem C4_witness :
    (processItems aggZero okEmptyOutcome neverStop ["a", "b"] 5).1.get? 0
      = some (Step.ranBatch ["a"] 6) ∧ (6 : Nat) = 5 + 0 + 1 := by
  have h : (processItems aggZero okEmptyOutcome neverStop ["a", "b"] 5).1.get? 0
      = some (Step.ranBatch ["a"] 6) := by decide
  obtain ⟨hj, hb, hs, _⟩ :=
    C4_checkpoint_thm aggZero okEmptyOutcome neverStop ["a", "b"] 5 0 ["a"] 6 h
  exact ⟨h, hs⟩

/-- When the wall-clock budget never triggers, the batch loop fetches
exactly the remaining slice, in order. -/
theorem processItemsGo_join_all {e : Type} (agg : List PricePoint → Rat)
    (outcome : String → Except e (List PricePoint)) (budget : Nat → Bool)
    (startIndex : Nat) (hfalse : ∀ k, budget k = false) :
    ∀ (remaining : List String) (i k : Nat) (st : BatchState),
      joinBatches
        (processItemsGo agg outcome budget startIndex remaining i k st).1
        = remaining := by
  intro remaining
  induction remaining with
  | nil =>
    intro i k st
    simp [processItemsGo, joinBatches]
  | cons item rest ih =>
    intro i k st
    simp [processItemsGo, hfalse k, joinBatches, ih]

/-- The batch loop only ever fetches an initial segment of the remaining
slice: the concatenation of its batches extends to the full slice. -/
theorem processItemsGo_join_pre {e : Type} (agg : List PricePoint → Rat)
    (outcome : String → Except e (List PricePoint)) (budget : Nat → Bool)
    (startIndex : Nat) :
    ∀ (remaining : List String) (i k : Nat) (st : BatchState),
      ∃ r, joinBatches
        (processItemsGo agg outcome budget startIndex remaining i k st).1 ++ r
        = remaining := by
  intro remaining
  induction remaining with
  | nil =>
    intro i k st
    exact ⟨[], by simp [processItemsGo, joinBatches]⟩
  | cons item rest ih =>
    intro i k st
    by_cases hb : budget k = true
    · refine ⟨item :: rest, ?_⟩
      simp [processItemsGo, hb, joinBatches]
    · rw [Bool.not_eq_true] at hb
      obtain ⟨r, hr⟩ := ih (i + 1) (k + 1) (processBatch agg outcome st [item])
      refine ⟨r, ?_⟩
      simp only [processItemsGo, hb, Bool.false_eq_true, if_false, joinBatches]
      rw [List.cons_append, List.nil_append, List.cons_append, hr]

/-- Claim C3: a run with a non-empty catalog computes
start = lastIndex % length, and its batch loop works through exactly the
suffix of the catalog from start, in order --- fully when the wall-clock
budget never triggers, and always through an initial segment of that
suffix, so items before start are never fetched by the batch loop. -/
theorem C3_resume_thm {e : Type} (agg : List PricePoint → Rat)
    (outcome : String → Except e (List PricePoint)) (budget : Nat → Bool)
    (catalog : List String) (p : Option Nat) (h : catalog ≠ []) :
    ∃ out, processMarketData agg outcome budget catalog p = some out ∧
      out.start = p.getD 0 % catalog.length ∧
      (∃ r, joinBatches out.steps ++ r
        = catalog.drop (p.getD 0 % catalog.length)) ∧
      ((∀ k, budget k = false) →
        joinBatches out.steps = catalog.drop (p.getD 0 % catalog.length)) := by
  have hL : ¬ (catalog.length = 0) := by
    simpa [List.length_eq_zero] using h
  unfold processMarketData
  rw [if_neg hL]
  refine ⟨_, rfl, rfl, ?_, ?_⟩
  · exact processItemsGo_join_pre agg outcome budget
      (p.getD 0 % catalog.length) (catalog.drop (p.getD 0 % catalog.length))
      0 0 { results := fun _ => none, failed := [] }
  · intro hfalse
    exact processItemsGo_join_all agg outcome budget
      (p.getD 0 % catalog.length) hfalse
      (catalog.drop (p.getD 0 % catalog.length))
      0 0 { results := fun _ => none, failed := [] }

/-- Witness for claim C3: a concrete two-item catalog resumed from
persisted cursor 3 starts at 3 % 2 = 1 and the run is produced. -/
theorem C3_witness :
    (["a", "b"] : List String) ≠ [] ∧
    Option.map RunOutcome.start
      (processMarketData aggZero okEmptyOutcome neverStop ["a", "b"] (some 3))
      = some 1 := by
  have h : (["a", "b"] : List String) ≠ [] := by decide
  obtain ⟨out, heq, hstart, _, _⟩ :=
    C3_resume_thm aggZero okEmptyOutcome neverStop ["a", "b"] (some 3) h
  refine ⟨h, ?_⟩
  rw [heq]
  show some out.start = some 1
  rw [hstart]
  rfl

/-- Counterexample to claim C9: a run whose wall-clock budget triggers at
the second loop iteration stops early, yet the second-pass retry of the
failed items still runs --- early termination does not suppress it. -/
theorem C9_counterexample :
    Option.map RunOutcome.stoppedEarly
      (processMarketData aggZero okEmptyOutcome stopAtOne ["a", "b"] none)
      = some true ∧
    Option.map RunOutcome.secondPassRan
      (processMarketData aggZero okEmptyOutcome stopAtOne ["a", "b"] none)
      = some true := by
  exact ⟨rfl, rfl⟩

/-- Claim C9 as amended: the second-pass retry runs exactly when
failedItems is non-empty at the moment the batch loop returns, whether the
loop covered the whole working slice or stopped early on the wall-clock
budget; an early stop does not suppress it. -/
theorem C9_amended_thm {e : Type} (agg : List PricePoint → Rat)
    (outcome : String → Except e (List PricePoint)) (budget : Nat → Bool)
    (catalog : List String) (p : Option Nat) (h : catalog ≠ []) :
    ∃ out, processMarketData agg outcome budget catalog p = some out ∧
      (out.secondPassRan = true ↔ out.retried ≠ []) := by
  have hL : ¬ (catalog.length = 0) := by
    simpa [List.length_eq_zero] using h
  unfold processMarketData
  rw [if_neg hL]
  refine ⟨_, rfl, ?_⟩
  simp [List.length_pos]

/-- Witness for the amended claim C9 at a concrete one-item run. -/
theorem C9_witness :
    (["a"] : List String) ≠ [] ∧
    (processMarketData aggZero okEmptyOutcome neverStop ["a"] none).isSome
      = true := by
  have h : (["a"] : List String) ≠ [] := by decide
  obtain ⟨out, heq, _⟩ :=
    C9_amended_thm aggZero okEmptyOutcome neverStop ["a"] none h
  exact ⟨h, by rw [heq]; rfl⟩

end CS2
